import Mathlib

/-!
Verification of the customer lookalike pipeline.

The pipeline under study builds, for each customer, a ranked list of the
most similar other customers.  Stages (in source order):

1. merge transactions with products on the product key (left join), then
   with customers on the customer key (left join), giving the joined
   transaction table;
2. aggregate per customer: spend per category, quantity per category,
   unique-product count, transaction count (missing cells filled with 0);
3. one-hot encode the customer region over the set of observed values;
4. left-join the encoded profile block with the aggregate block, filling
   absent aggregate rows with zeros;
5. min-max scale every feature column over the whole population;
6. compute the all-pairs cosine similarity matrix;
7. per queried customer: take the similarity row, drop the self entry,
   and keep the largest entries sorted by score descending (stable on
   ties, so equal scores keep their row order).

Customer, product, transaction and region/category identities are
modelled as natural numbers; monetary values and quantities as rationals;
similarity scores as real numbers.
-/

set_option maxHeartbeats 1000000

deriving instance DecidableEq for Except

/-- A customer profile record: key, categorical region attribute (`none`
models a missing value in the data). The signup timestamp is not consumed
by any scoring stage and is omitted. -/
structure CustomerRecord where
  id : Nat
  region : Option Nat
  deriving DecidableEq

/-- A product record: key and category label. -/
structure ProductRecord where
  id : Nat
  category : Nat
  deriving DecidableEq

/-- A transaction record: key, customer reference, product reference,
quantity and total monetary value. The timestamp is unused downstream and
omitted. -/
structure TransactionRecord where
  id : Nat
  customerId : Nat
  productId : Nat
  quantity : ℚ
  totalValue : ℚ
  deriving DecidableEq

/-- A row of the joined transaction table (the merge of transactions with
products, then with customers). `category` is `none` when the product key
matched no product (the left join keeps the row with an undefined
category). The customer-profile columns added by the second merge are
never read by any aggregation, so they are not retained on the row; the
second merge is still modelled because it can replicate rows when the
profile table holds duplicate keys. -/
structure Row where
  transactionId : Nat
  customerId : Nat
  productId : Nat
  quantity : ℚ
  totalValue : ℚ
  category : Option Nat
  deriving DecidableEq

/-- Left-merge the transactions with the products on the product key:
every transaction row is kept; a matching product contributes its
category, an unmatched product key leaves the category undefined;
duplicate matching product rows replicate the transaction row. -/
def transactionsProducts (ts : List TransactionRecord) (ps : List ProductRecord) : List Row :=
  ts.flatMap (fun t =>
    let ms := ps.filter (fun p => p.id = t.productId)
    if ms.isEmpty then
      [⟨t.id, t.customerId, t.productId, t.quantity, t.totalValue, none⟩]
    else
      ms.map (fun p => ⟨t.id, t.customerId, t.productId, t.quantity, t.totalValue, some p.category⟩))

/-- Left-merge the joined transaction table with the customer profiles on
the customer key. Unmatched rows are kept; duplicate matching customer
rows replicate the transaction row. The profile columns this merge
appends are not consumed by any later stage, so the row content is
unchanged. -/
def fullDataRows (cs : List CustomerRecord) (ps : List ProductRecord)
    (ts : List TransactionRecord) : List Row :=
  (transactionsProducts ts ps).flatMap (fun r =>
    let ms := cs.filter (fun c => c.id = r.customerId)
    if ms.isEmpty then [r] else ms.map (fun _ => r))

/-- Insert into an ascending list of naturals (helper for the sorted
category universes used as column orders). -/
def insertAsc (x : Nat) : List Nat → List Nat
  | [] => [x]
  | y :: ys => if x ≤ y then x :: y :: ys else y :: insertAsc x ys

/-- Sort a list of naturals ascending (insertion sort). -/
def sortAsc : List Nat → List Nat
  | [] => []
  | x :: xs => insertAsc x (sortAsc xs)

/-- The product-category universe: the distinct category values observed
in the joined transaction table (rows whose category is undefined carry
no category and are skipped, as a group-by on the category drops missing
keys), in ascending order (the unstacked columns are sorted by label). -/
def categoryUniverse (rows : List Row) : List Nat :=
  sortAsc (rows.filterMap Row.category).dedup

/-- Total spend of customer `c` in category `cat`: the sum of the total
values of the joined rows carrying that customer and that category. -/
def spendPerCategory (rows : List Row) (c : Nat) (cat : Nat) : ℚ :=
  ((rows.filter (fun r => r.customerId = c ∧ r.category = some cat)).map Row.totalValue).sum

/-- Total quantity purchased by customer `c` in category `cat`. -/
def quantityPerCategory (rows : List Row) (c : Nat) (cat : Nat) : ℚ :=
  ((rows.filter (fun r => r.customerId = c ∧ r.category = some cat)).map Row.quantity).sum

/-- Number of distinct product keys appearing on customer `c`'s joined
rows. -/
def uniqueProducts (rows : List Row) (c : Nat) : Nat :=
  ((rows.filter (fun r => r.customerId = c)).map Row.productId).dedup.length

/-- Number of distinct transaction keys appearing on customer `c`'s
joined rows. -/
def totalTransactions (rows : List Row) (c : Nat) : Nat :=
  ((rows.filter (fun r => r.customerId = c)).map Row.transactionId).dedup.length

/-- The aggregate feature block of customer `c`: spend per category (one
slot per category of the universe, in order), then quantity per category,
then the unique-product count and the transaction count. -/
def aggVector (rows : List Row) (cats : List Nat) (c : Nat) : List ℚ :=
  cats.map (fun cat => spendPerCategory rows c cat)
    ++ cats.map (fun cat => quantityPerCategory rows c cat)
    ++ [(uniqueProducts rows c : ℚ), (totalTransactions rows c : ℚ)]

/-- Width of the aggregate block: two slots per category plus the two
count features. -/
def aggWidth (cats : List Nat) : Nat :=
  2 * cats.length + 2

/-- Customer keys present in the joined transaction table (the index of
the aggregate table produced by the group-bys). -/
def txnCustomers (rows : List Row) : List Nat :=
  (rows.map Row.customerId).dedup

/-- The aggregate feature table: one keyed aggregate block per customer
key observed in the joined transaction table. -/
def transactionFeatures (rows : List Row) (cats : List Nat) : List (Nat × List ℚ) :=
  (txnCustomers rows).map (fun c => (c, aggVector rows cats c))

/-- The region universe: distinct region values observed across all
customer profiles, in ascending order (the encoder sorts its category
values, and this order fixes the indicator columns). -/
def regionUniverse (cs : List CustomerRecord) : List Nat :=
  sortAsc (cs.filterMap CustomerRecord.region).dedup

/-- One-hot indicator vector for value `r` over the ordered universe
`univ`: 1 in the slot of `r`, 0 elsewhere. -/
def oneHot (univ : List Nat) (r : Nat) : List ℚ :=
  univ.map (fun v => if v = r then (1 : ℚ) else 0)

/-- Pipeline failures. `missingAttributeError` carries the key of a
customer record lacking its categorical attribute; `unknownCustomerError`
carries a queried key absent from the built model. -/
inductive PipelineError where
  | missingAttributeError (customerId : Nat)
  | unknownCustomerError (customerId : Nat)
  deriving DecidableEq

/-- Modelled from the spec: the categorical encoder's missing-value
policy. The source delegates the region encoding to an external one-hot
encoder library and contains no handling of its own for a record with an
undefined region; the spec's contract is that such a record makes the
encoding fail with a `MissingAttributeError` naming that record,
surfaced to the caller. On records whose region is defined the encoder
follows the source: one indicator row per customer over the sorted
universe of observed values. -/
def encodeCustomers (univ : List Nat) : List CustomerRecord → Except PipelineError (List (Nat × List ℚ))
  | [] => .ok []
  | c :: cs =>
    match c.region with
    | none => .error (.missingAttributeError c.id)
    | some r => (encodeCustomers univ cs).map (fun rest => (c.id, oneHot univ r) :: rest)

/-- Left-join the encoded profile block with the aggregate feature table
on the customer key: every encoded customer is kept, in order; a customer
present in the aggregate table receives its aggregate block, one absent
from it (no transactions) receives a zero block of the same width, as
the missing cells of the join are filled with 0. -/
def joinFeatures (encoded : List (Nat × List ℚ)) (txF : List (Nat × List ℚ))
    (width : Nat) : List (Nat × List ℚ) :=
  encoded.map (fun e =>
    (e.1, e.2 ++ match txF.find? (fun p => p.1 = e.1) with
      | some p => p.2
      | none => List.replicate width 0))

/-- Build the (unscaled) customer feature table from the three input
collections: joined rows, category universe, region encoding, then the
profile/aggregate join. An encoding failure is surfaced unchanged. -/
def buildCustomerData (cs : List CustomerRecord) (ps : List ProductRecord)
    (ts : List TransactionRecord) : Except PipelineError (List (Nat × List ℚ)) :=
  let rows := fullDataRows cs ps ts
  let cats := categoryUniverse rows
  (encodeCustomers (regionUniverse cs) cs).map
    (fun enc => joinFeatures enc (transactionFeatures rows cats) (aggWidth cats))

/-- Values of column `j` of a table of feature rows (absent positions
read as 0). -/
def colVals (tbl : List (List ℚ)) (j : Nat) : List ℚ :=
  tbl.map (fun r => r.getD j 0)

/-- Minimum of a list of rationals (0 for the empty list). -/
def listMin : List ℚ → ℚ
  | [] => 0
  | x :: xs => xs.foldr min x

/-- Maximum of a list of rationals (0 for the empty list). -/
def listMax : List ℚ → ℚ
  | [] => 0
  | x :: xs => xs.foldr max x

/-- Min-max rescaling of one value: `(x - min) / (max - min)`, with a
zero column range replaced by 1 before dividing, exactly as the scaler's
zero-range guard does, so a constant column maps to 0 instead of
dividing by zero. -/
def scaleValue (mn mx x : ℚ) : ℚ :=
  (x - mn) / (if mx - mn = 0 then 1 else mx - mn)

/-- Min-max scale one feature row against the whole population: each
column is rescaled by the column minimum and maximum observed across the
table. -/
def scaleRow (tbl : List (List ℚ)) (row : List ℚ) : List ℚ :=
  (List.range row.length).map
    (fun j => scaleValue (listMin (colVals tbl j)) (listMax (colVals tbl j)) (row.getD j 0))

/-- Min-max scale the whole keyed feature table (population statistics
come from the table itself). -/
def scaleData (data : List (Nat × List ℚ)) : List (Nat × List ℚ) :=
  data.map (fun p => (p.1, scaleRow (data.map Prod.snd) p.2))

/-- The scaled customer feature table: the built table, min-max scaled. -/
def buildScaled (cs : List CustomerRecord) (ps : List ProductRecord)
    (ts : List TransactionRecord) : Except PipelineError (List (Nat × List ℚ)) :=
  (buildCustomerData cs ps ts).map scaleData

/-- Dot product of two feature vectors (zip of the common prefix, as the
vectors of one run share a length). -/
def dotQ (u v : List ℚ) : ℚ :=
  (List.zipWith (· * ·) u v).sum

/-- Euclidean norm of a feature vector. -/
noncomputable def nrm (u : List ℚ) : ℝ :=
  Real.sqrt ((dotQ u u : ℚ) : ℝ)

/-- Norm with the zero-norm guard of the similarity routine: an all-zero
vector keeps divisor 1, so its similarities are 0 rather than undefined. -/
noncomputable def safeNrm (u : List ℚ) : ℝ :=
  if nrm u = 0 then 1 else nrm u

/-- Cosine similarity of two feature vectors, with the zero-norm guard. -/
noncomputable def cosineSim (u v : List ℚ) : ℝ :=
  ((dotQ u v : ℚ) : ℝ) / (safeNrm u * safeNrm v)

/-- Entry `(i, j)` of the all-pairs similarity matrix over a table of
feature rows. -/
noncomputable def simMatrixEntry (tbl : List (List ℚ)) (i j : Nat) : ℝ :=
  cosineSim (tbl.getD i []) (tbl.getD j [])

/-- The similarity row of the vector `u` against every keyed vector of
the table, in table order. -/
noncomputable def simRowFor (data : List (Nat × List ℚ)) (u : List ℚ) : List (Nat × ℝ) :=
  data.map (fun p => (p.1, cosineSim u p.2))

/-- Insert a keyed score into a list sorted by score descending, after
every entry of greater-or-equal score: a stable descending insertion, so
earlier entries keep priority on ties. -/
def insertDesc {α β : Type} [LinearOrder β] (x : α × β) : List (α × β) → List (α × β)
  | [] => [x]
  | y :: ys => if y.2 ≤ x.2 then x :: y :: ys else y :: insertDesc x ys

/-- Stable sort by score descending: equal scores keep their original
relative order (first occurrences first), which is the tie behaviour of
the largest-k selection in the source. -/
def sortDesc {α β : Type} [LinearOrder β] : List (α × β) → List (α × β)
  | [] => []
  | x :: xs => insertDesc x (sortDesc xs)

/-- The `k` largest keyed scores, sorted by score descending, ties kept
in original order. -/
def nlargest {α β : Type} [LinearOrder β] (k : Nat) (xs : List (α × β)) : List (α × β) :=
  (sortDesc xs).take k

/-- The recommend query: build the scaled table, look the queried key up
in it (an absent key is the unknown-customer failure), score every
customer of the table against it, drop the self entry, and keep the top
`k` by score. -/
noncomputable def recommend (cs : List CustomerRecord) (ps : List ProductRecord)
    (ts : List TransactionRecord) (q : Nat) (k : Nat) :
    Except PipelineError (List (Nat × ℝ)) :=
  match buildScaled cs ps ts with
  | .error e => .error e
  | .ok data =>
    match data.find? (fun p => p.1 = q) with
    | none => .error (.unknownCustomerError q)
    | some p => .ok (nlargest k ((simRowFor data p.2).filter (fun r => r.1 ≠ q)))

/-- Score order: the list is sorted by score descending (each entry's
score is greater than or equal to every later score). -/
def SortedDesc {α β : Type} [LinearOrder β] (l : List (α × β)) : Prop :=
  l.Pairwise (fun a b => b.2 ≤ a.2)

theorem insertDesc_perm {α β : Type} [LinearOrder β] (x : α × β) :
    ∀ l : List (α × β), (insertDesc x l).Perm (x :: l)
  | [] => List.Perm.refl _
  | y :: ys => by
    unfold insertDesc
    by_cases h : y.2 ≤ x.2
    · simp [h]
    · simp only [if_neg h]
      exact ((insertDesc_perm x ys).cons y).trans (List.Perm.swap x y ys)

theorem sortDesc_perm {α β : Type} [LinearOrder β] :
    ∀ l : List (α × β), (sortDesc l).Perm l
  | [] => List.Perm.refl _
  | x :: xs => (insertDesc_perm x (sortDesc xs)).trans ((sortDesc_perm xs).cons x)

theorem sortedDesc_insertDesc {α β : Type} [LinearOrder β] (x : α × β) :
    ∀ l : List (α × β), SortedDesc l → SortedDesc (insertDesc x l)
  | [], _ => List.Pairwise.cons (by simp) List.Pairwise.nil
  | y :: ys, h => by
    rcases List.pairwise_cons.mp h with ⟨hy, hys⟩
    unfold insertDesc
    by_cases hle : y.2 ≤ x.2
    · simp only [if_pos hle]
      refine List.pairwise_cons.mpr ⟨?_, h⟩
      intro z hz
      rcases List.mem_cons.mp hz with rfl | hz
      · exact hle
      · exact le_trans (hy z hz) hle
    · simp only [if_neg hle]
      refine List.pairwise_cons.mpr ⟨?_, sortedDesc_insertDesc x ys hys⟩
      intro z hz
      rcases List.mem_cons.mp ((insertDesc_perm x ys).mem_iff.mp hz) with rfl | hz
      · exact le_of_lt (lt_of_not_le hle)
      · exact hy z hz

theorem sortedDesc_sortDesc {α β : Type} [LinearOrder β] :
    ∀ l : List (α × β), SortedDesc (sortDesc l)
  | [] => List.Pairwise.nil
  | x :: xs => sortedDesc_insertDesc x (sortDesc xs) (sortedDesc_sortDesc xs)

theorem pairwise_insertDesc {α β : Type} [LinearOrder β]
    {Q : α × β → α × β → Prop} (x : α × β) :
    ∀ l : List (α × β), SortedDesc l → l.Pairwise Q →
      (∀ y ∈ l, y.2 ≤ x.2 → Q x y) → (∀ y ∈ l, x.2 < y.2 → Q y x) →
      (insertDesc x l).Pairwise Q
  | [], _, _, _, _ => List.Pairwise.cons (by simp) List.Pairwise.nil
  | y :: ys, hs, hq, h1, h2 => by
    rcases List.pairwise_cons.mp hs with ⟨hsy, hsys⟩
    rcases List.pairwise_cons.mp hq with ⟨hqy, hqys⟩
    unfold insertDesc
    by_cases hle : y.2 ≤ x.2
    · simp only [if_pos hle]
      refine List.pairwise_cons.mpr ⟨?_, hq⟩
      intro z hz
      rcases List.mem_cons.mp hz with rfl | hz
      · exact h1 z (List.mem_cons_self _ _) hle
      · exact h1 z (List.mem_cons_of_mem y hz) (le_trans (hsy z hz) hle)
    · simp only [if_neg hle]
      refine List.pairwise_cons.mpr ⟨?_, ?_⟩
      · intro z hz
        rcases List.mem_cons.mp ((insertDesc_perm x ys).mem_iff.mp hz) with rfl | hz
        · exact h2 y (List.mem_cons_self _ _) (lt_of_not_le hle)
        · exact hqy z hz
      · exact pairwise_insertDesc x ys hsys hqys
          (fun z hz hle => h1 z (List.mem_cons_of_mem y hz) hle)
          (fun z hz hlt => h2 z (List.mem_cons_of_mem y hz) hlt)

theorem sortDesc_ties {α β : Type} [LinearOrder β] (R : α × β → α × β → Prop) :
    ∀ l : List (α × β), l.Pairwise (fun a b => a.2 = b.2 → R a b) →
      (sortDesc l).Pairwise (fun a b => a.2 = b.2 → R a b)
  | [], _ => List.Pairwise.nil
  | x :: xs, h => by
    rcases List.pairwise_cons.mp h with ⟨hx, hxs⟩
    refine pairwise_insertDesc x (sortDesc xs) (sortedDesc_sortDesc xs)
      (sortDesc_ties R xs hxs) ?_ ?_
    · intro y hy _
      exact hx y ((sortDesc_perm xs).mem_iff.mp hy)
    · intro y hy hlt heq
      exact absurd (heq ▸ hlt) (lt_irrefl y.2)

theorem foldr_min_le_init (a : ℚ) : ∀ l : List ℚ, l.foldr min a ≤ a
  | [] => le_refl a
  | x :: xs => le_trans (min_le_right x _) (foldr_min_le_init a xs)

theorem foldr_min_le_mem (a x : ℚ) : ∀ l : List ℚ, x ∈ l → l.foldr min a ≤ x
  | y :: ys, h => by
    rcases List.mem_cons.mp h with rfl | h
    · exact min_le_left x _
    · exact le_trans (min_le_right y _) (foldr_min_le_mem a x ys h)

theorem init_le_foldr_max (a : ℚ) : ∀ l : List ℚ, a ≤ l.foldr max a
  | [] => le_refl a
  | x :: xs => le_trans (init_le_foldr_max a xs) (le_max_right x _)

theorem mem_le_foldr_max (a x : ℚ) : ∀ l : List ℚ, x ∈ l → x ≤ l.foldr max a
  | y :: ys, h => by
    rcases List.mem_cons.mp h with rfl | h
    · exact le_max_left x _
    · exact le_trans (mem_le_foldr_max a x ys h) (le_max_right y _)

theorem listMin_le_of_mem {x : ℚ} : ∀ {l : List ℚ}, x ∈ l → listMin l ≤ x := by
  intro l h
  match l with
  | y :: ys =>
    rcases List.mem_cons.mp h with rfl | h
    · exact foldr_min_le_init x ys
    · exact foldr_min_le_mem y x ys h

theorem le_listMax_of_mem {x : ℚ} : ∀ {l : List ℚ}, x ∈ l → x ≤ listMax l := by
  intro l h
  match l with
  | y :: ys =>
    rcases List.mem_cons.mp h with rfl | h
    · exact init_le_foldr_max x ys
    · exact mem_le_foldr_max y x ys h

theorem eq_listMin_of_min_eq_max {l : List ℚ} (h : listMin l = listMax l) :
    ∀ y ∈ l, y = listMin l :=
  fun _ hx => le_antisymm (h ▸ le_listMax_of_mem hx) (listMin_le_of_mem hx)

theorem scaleRow_getD (tbl : List (List ℚ)) (row : List ℚ) (j : Nat) (hj : j < row.length) :
    (scaleRow tbl row).getD j 0 =
      scaleValue (listMin (colVals tbl j)) (listMax (colVals tbl j)) (row.getD j 0) := by
  rw [scaleRow, List.getD_eq_getElem?_getD, List.getElem?_map, List.getElem?_range hj]
  rfl

theorem scaleRow_entries_nonneg (tbl : List (List ℚ)) (row : List ℚ) (hrow : row ∈ tbl) :
    ∀ y ∈ scaleRow tbl row, 0 ≤ y := by
  intro y hy
  rcases List.mem_map.mp hy with ⟨j, _, rfl⟩
  have hxmem : row.getD j 0 ∈ colVals tbl j := List.mem_map_of_mem _ hrow
  have hmn : listMin (colVals tbl j) ≤ row.getD j 0 := listMin_le_of_mem hxmem
  have hmx : row.getD j 0 ≤ listMax (colVals tbl j) := le_listMax_of_mem hxmem
  unfold scaleValue
  by_cases hz : listMax (colVals tbl j) - listMin (colVals tbl j) = 0
  · rw [if_pos hz]
    exact div_nonneg (sub_nonneg.mpr hmn) zero_le_one
  · rw [if_neg hz]
    refine div_nonneg (sub_nonneg.mpr hmn) (le_of_lt ?_)
    exact lt_of_le_of_ne (sub_nonneg.mpr (le_trans hmn hmx)) (Ne.symm hz)

theorem dotQ_nil_left (v : List ℚ) : dotQ [] v = 0 := rfl

theorem dotQ_nil_right : ∀ u : List ℚ, dotQ u [] = 0
  | [] => rfl
  | _ :: _ => rfl

theorem dotQ_cons (a b : ℚ) (u v : List ℚ) : dotQ (a :: u) (b :: v) = a * b + dotQ u v := by
  simp [dotQ]

theorem dotQ_comm (u v : List ℚ) : dotQ u v = dotQ v u := by
  unfold dotQ
  rw [List.zipWith_comm_of_comm (· * ·) mul_comm]

theorem dotQ_eq_sum :
    ∀ u v : List ℚ,
      dotQ u v = ∑ i ∈ Finset.range (min u.length v.length), u.getD i 0 * v.getD i 0
  | [], v => by simp [dotQ_nil_left]
  | a :: u, [] => by simp [dotQ_nil_right]
  | a :: u, b :: v => by
    rw [dotQ_cons, dotQ_eq_sum u v]
    simp only [List.length_cons, Nat.succ_min_succ, Finset.sum_range_succ',
      List.getD_cons_succ, List.getD_cons_zero]
    ring

theorem dotQ_self_eq_sum (u : List ℚ) :
    dotQ u u = ∑ i ∈ Finset.range u.length, u.getD i 0 ^ 2 := by
  rw [dotQ_eq_sum, Nat.min_self]
  exact Finset.sum_congr rfl (fun i _ => (sq (u.getD i 0)).symm)

theorem dotQ_self_nonneg (u : List ℚ) : 0 ≤ dotQ u u := by
  rw [dotQ_self_eq_sum]
  exact Finset.sum_nonneg (fun i _ => sq_nonneg _)

theorem dotQ_nonneg :
    ∀ u v : List ℚ, (∀ x ∈ u, 0 ≤ x) → (∀ x ∈ v, 0 ≤ x) → 0 ≤ dotQ u v
  | [], _, _, _ => le_refl 0
  | _ :: _, [], _, _ => le_of_eq (dotQ_nil_right _).symm
  | a :: u, b :: v, hu, hv => by
    rw [dotQ_cons]
    refine add_nonneg (mul_nonneg (hu a (by simp)) (hv b (by simp))) ?_
    exact dotQ_nonneg u v (fun x hx => hu x (List.mem_cons_of_mem a hx))
      (fun x hx => hv x (List.mem_cons_of_mem b hx))

theorem dotQ_sq_le (u v : List ℚ) : dotQ u v ^ 2 ≤ dotQ u u * dotQ v v := by
  rw [dotQ_eq_sum u v, dotQ_self_eq_sum u, dotQ_self_eq_sum v]
  have hcs := Finset.sum_mul_sq_le_sq_mul_sq (Finset.range (min u.length v.length))
    (fun i => u.getD i 0) (fun i => v.getD i 0)
  refine le_trans hcs (mul_le_mul ?_ ?_ ?_ ?_)
  · exact Finset.sum_le_sum_of_subset_of_nonneg
      (Finset.range_subset.mpr (Nat.min_le_left _ _)) (fun i _ _ => sq_nonneg _)
  · exact Finset.sum_le_sum_of_subset_of_nonneg
      (Finset.range_subset.mpr (Nat.min_le_right _ _)) (fun i _ _ => sq_nonneg _)
  · exact Finset.sum_nonneg (fun i _ => sq_nonneg _)
  · exact Finset.sum_nonneg (fun i _ => sq_nonneg _)

theorem nrm_nonneg (u : List ℚ) : 0 ≤ nrm u :=
  Real.sqrt_nonneg _

theorem abs_dotQ_le (u v : List ℚ) : |((dotQ u v : ℚ) : ℝ)| ≤ nrm u * nrm v := by
  rw [← Real.sqrt_sq_eq_abs]
  have hsq : ((dotQ u v : ℚ) : ℝ) ^ 2 ≤ ((dotQ u u : ℚ) : ℝ) * ((dotQ v v : ℚ) : ℝ) := by
    exact_mod_cast dotQ_sq_le u v
  refine le_trans (Real.sqrt_le_sqrt hsq) (le_of_eq ?_)
  exact Real.sqrt_mul (by exact_mod_cast dotQ_self_nonneg u) _

theorem safeNrm_pos (u : List ℚ) : 0 < safeNrm u := by
  unfold safeNrm
  by_cases h : nrm u = 0
  · rw [if_pos h]; exact zero_lt_one
  · rw [if_neg h]; exact lt_of_le_of_ne (nrm_nonneg u) (Ne.symm h)

theorem cosineSim_zero_left {u : List ℚ} (v : List ℚ) (h : nrm u = 0) :
    cosineSim u v = 0 := by
  have hA : ((dotQ u u : ℚ) : ℝ) = 0 := by
    have := (Real.sqrt_eq_zero (by exact_mod_cast dotQ_self_nonneg u)).mp h
    exact this
  have hd : |((dotQ u v : ℚ) : ℝ)| ≤ 0 := by
    have := abs_dotQ_le u v
    rw [h, zero_mul] at this
    exact this
  have hz : ((dotQ u v : ℚ) : ℝ) = 0 := abs_eq_zero.mp (le_antisymm hd (abs_nonneg _))
  unfold cosineSim
  rw [hz, zero_div]

theorem abs_cosineSim_le_one (u v : List ℚ) : |cosineSim u v| ≤ 1 := by
  by_cases hu : nrm u = 0
  · rw [cosineSim_zero_left v hu]; simp
  by_cases hv : nrm v = 0
  · have : cosineSim u v = 0 := by
      unfold cosineSim
      have hA : ((dotQ v v : ℚ) : ℝ) = 0 :=
        (Real.sqrt_eq_zero (by exact_mod_cast dotQ_self_nonneg v)).mp hv
      have hd : |((dotQ u v : ℚ) : ℝ)| ≤ 0 := by
        have h2 := abs_dotQ_le u v
        rw [hv, mul_zero] at h2
        exact h2
      rw [abs_eq_zero.mp (le_antisymm hd (abs_nonneg _)), zero_div]
    rw [this]; simp
  · have hup : 0 < nrm u := lt_of_le_of_ne (nrm_nonneg u) (Ne.symm hu)
    have hvp : 0 < nrm v := lt_of_le_of_ne (nrm_nonneg v) (Ne.symm hv)
    unfold cosineSim safeNrm
    rw [if_neg hu, if_neg hv, abs_div, abs_of_pos (mul_pos hup hvp)]
    rw [div_le_one (mul_pos hup hvp)]
    exact abs_dotQ_le u v

theorem neg_one_le_cosineSim (u v : List ℚ) : -1 ≤ cosineSim u v :=
  (abs_le.mp (abs_cosineSim_le_one u v)).1

theorem cosineSim_le_one (u v : List ℚ) : cosineSim u v ≤ 1 :=
  (abs_le.mp (abs_cosineSim_le_one u v)).2

theorem cosineSim_nonneg (u v : List ℚ) (hu : ∀ x ∈ u, 0 ≤ x) (hv : ∀ x ∈ v, 0 ≤ x) :
    0 ≤ cosineSim u v := by
  unfold cosineSim
  refine div_nonneg ?_ (le_of_lt (mul_pos (safeNrm_pos u) (safeNrm_pos v)))
  exact_mod_cast dotQ_nonneg u v hu hv

theorem cosineSim_comm (u v : List ℚ) : cosineSim u v = cosineSim v u := by
  unfold cosineSim
  rw [dotQ_comm, mul_comm]

theorem cosineSim_self (u : List ℚ) (h : 0 < nrm u) : cosineSim u u = 1 := by
  have hA : (0 : ℝ) < ((dotQ u u : ℚ) : ℝ) := Real.sqrt_pos.mp h
  unfold cosineSim safeNrm
  rw [if_neg (ne_of_gt h)]
  unfold nrm
  rw [Real.mul_self_sqrt (le_of_lt hA)]
  exact div_self (ne_of_gt hA)

theorem length_insertAsc (x : Nat) : ∀ l : List Nat, (insertAsc x l).length = l.length + 1
  | [] => rfl
  | y :: ys => by
    unfold insertAsc
    by_cases h : x ≤ y
    · rw [if_pos h]; rfl
    · rw [if_neg h]
      simp [length_insertAsc x ys]

theorem length_sortAsc : ∀ l : List Nat, (sortAsc l).length = l.length
  | [] => rfl
  | x :: xs => by
    unfold sortAsc
    rw [length_insertAsc, length_sortAsc xs]
    rfl

theorem encodeCustomers_ok_keys (univ : List Nat) :
    ∀ cs enc, encodeCustomers univ cs = .ok enc →
      enc.map Prod.fst = cs.map CustomerRecord.id
  | [], enc, h => by
    simp only [encodeCustomers] at h
    cases h
    rfl
  | c :: cs, enc, h => by
    simp only [encodeCustomers] at h
    cases hr : c.region with
    | none => rw [hr] at h; cases h
    | some r =>
      rw [hr] at h
      cases he : encodeCustomers univ cs with
      | error e => rw [he] at h; cases h
      | ok rest =>
        rw [he] at h
        cases h
        simp [encodeCustomers_ok_keys univ cs rest he]

theorem encodeCustomers_ok_lengths (univ : List Nat) :
    ∀ cs enc, encodeCustomers univ cs = .ok enc →
      ∀ p ∈ enc, p.2.length = univ.length
  | [], enc, h => by
    simp only [encodeCustomers] at h
    cases h
    intro p hp
    cases hp
  | c :: cs, enc, h => by
    simp only [encodeCustomers] at h
    cases hr : c.region with
    | none => rw [hr] at h; cases h
    | some r =>
      rw [hr] at h
      cases he : encodeCustomers univ cs with
      | error e => rw [he] at h; cases h
      | ok rest =>
        rw [he] at h
        cases h
        intro p hp
        rcases List.mem_cons.mp hp with rfl | hp
        · simp [oneHot]
        · exact encodeCustomers_ok_lengths univ cs rest he p hp

theorem encodeCustomers_ok_of_defined (univ : List Nat) :
    ∀ cs : List CustomerRecord, (∀ c ∈ cs, c.region ≠ none) →
      ∃ enc, encodeCustomers univ cs = .ok enc
  | [], _ => ⟨[], rfl⟩
  | c :: cs, h => by
    rcases encodeCustomers_ok_of_defined univ cs
      (fun d hd => h d (List.mem_cons_of_mem c hd)) with ⟨enc, henc⟩
    cases hr : c.region with
    | none => exact absurd hr (h c (List.mem_cons_self _ _))
    | some r =>
      refine ⟨(c.id, oneHot univ r) :: enc, ?_⟩
      simp only [encodeCustomers, hr, henc, Except.map]

theorem encodeCustomers_first_missing (univ : List Nat) (ps : List ProductRecord)
    (c : CustomerRecord) (post : List CustomerRecord) (hc : c.region = none) :
    ∀ pre : List CustomerRecord, (∀ d ∈ pre, d.region ≠ none) →
      encodeCustomers univ (pre ++ c :: post) = .error (.missingAttributeError c.id)
  | [], _ => by simp only [List.nil_append, encodeCustomers, hc]
  | d :: pre, h => by
    cases hr : d.region with
    | none => exact absurd hr (h d (List.mem_cons_self _ _))
    | some r =>
      have ih := encodeCustomers_first_missing univ ps c post hc pre
        (fun e he => h e (List.mem_cons_of_mem d he))
      simp only [List.cons_append, encodeCustomers, hr, List.append_eq, ih, Except.map]

theorem joinFeatures_keys (encoded txF : List (Nat × List ℚ)) (width : Nat) :
    (joinFeatures encoded txF width).map Prod.fst = encoded.map Prod.fst := by
  unfold joinFeatures
  rw [List.map_map]
  rfl

theorem scaleData_keys (data : List (Nat × List ℚ)) :
    (scaleData data).map Prod.fst = data.map Prod.fst := by
  unfold scaleData
  rw [List.map_map]
  rfl

theorem buildCustomerData_ok_inv (cs : List CustomerRecord) (ps : List ProductRecord)
    (ts : List TransactionRecord) (data : List (Nat × List ℚ))
    (h : buildCustomerData cs ps ts = .ok data) :
    ∃ enc, encodeCustomers (regionUniverse cs) cs = .ok enc ∧
      data = joinFeatures enc
        (transactionFeatures (fullDataRows cs ps ts)
          (categoryUniverse (fullDataRows cs ps ts)))
        (aggWidth (categoryUniverse (fullDataRows cs ps ts))) := by
  unfold buildCustomerData at h
  cases he : encodeCustomers (regionUniverse cs) cs with
  | error e => rw [he] at h; cases h
  | ok enc =>
    rw [he] at h
    cases h
    exact ⟨enc, rfl, rfl⟩

theorem buildCustomerData_ok_keys (cs : List CustomerRecord) (ps : List ProductRecord)
    (ts : List TransactionRecord) (data : List (Nat × List ℚ))
    (h : buildCustomerData cs ps ts = .ok data) :
    data.map Prod.fst = cs.map CustomerRecord.id := by
  rcases buildCustomerData_ok_inv cs ps ts data h with ⟨enc, henc, rfl⟩
  rw [joinFeatures_keys]
  exact encodeCustomers_ok_keys _ cs enc henc

theorem buildScaled_ok_inv (cs : List CustomerRecord) (ps : List ProductRecord)
    (ts : List TransactionRecord) (sdata : List (Nat × List ℚ))
    (h : buildScaled cs ps ts = .ok sdata) :
    ∃ data, buildCustomerData cs ps ts = .ok data ∧ sdata = scaleData data := by
  unfold buildScaled at h
  cases hb : buildCustomerData cs ps ts with
  | error e => rw [hb] at h; cases h
  | ok data =>
    rw [hb] at h
    cases h
    exact ⟨data, rfl, rfl⟩

theorem buildScaled_ok_keys (cs : List CustomerRecord) (ps : List ProductRecord)
    (ts : List TransactionRecord) (sdata : List (Nat × List ℚ))
    (h : buildScaled cs ps ts = .ok sdata) :
    sdata.map Prod.fst = cs.map CustomerRecord.id := by
  rcases buildScaled_ok_inv cs ps ts sdata h with ⟨data, hdata, rfl⟩
  rw [scaleData_keys]
  exact buildCustomerData_ok_keys cs ps ts data hdata

theorem mem_transactionsProducts (ts : List TransactionRecord) (ps : List ProductRecord)
    (r : Row) (hr : r ∈ transactionsProducts ts ps) :
    ∃ t ∈ ts, r.transactionId = t.id ∧ r.customerId = t.customerId ∧
      r.productId = t.productId ∧ r.quantity = t.quantity ∧ r.totalValue = t.totalValue ∧
      ((∀ p ∈ ps, p.id ≠ t.productId) ∧ r.category = none ∨
        ∃ p ∈ ps, p.id = t.productId ∧ r.category = some p.category) := by
  rcases List.mem_flatMap.mp hr with ⟨t, ht, hmem⟩
  refine ⟨t, ht, ?_⟩
  by_cases hemp : (ps.filter (fun p => p.id = t.productId)).isEmpty
  · rw [if_pos hemp] at hmem
    rcases List.mem_cons.mp hmem with rfl | h
    · refine ⟨rfl, rfl, rfl, rfl, rfl, Or.inl ⟨?_, rfl⟩⟩
      intro p hp hpid
      have hnil := List.isEmpty_iff.mp hemp
      have : p ∈ ps.filter (fun p => p.id = t.productId) :=
        List.mem_filter.mpr ⟨hp, by simp [hpid]⟩
      rw [hnil] at this
      cases this
    · cases h
  · rw [if_neg hemp] at hmem
    rcases List.mem_map.mp hmem with ⟨p, hp, rfl⟩
    rcases List.mem_filter.mp hp with ⟨hpmem, hpid⟩
    exact ⟨rfl, rfl, rfl, rfl, rfl,
      Or.inr ⟨p, hpmem, of_decide_eq_true hpid, rfl⟩⟩

theorem mem_fullDataRows (cs : List CustomerRecord) (ps : List ProductRecord)
    (ts : List TransactionRecord) (r : Row) (hr : r ∈ fullDataRows cs ps ts) :
    r ∈ transactionsProducts ts ps := by
  rcases List.mem_flatMap.mp hr with ⟨r0, hr0, hmem⟩
  by_cases hemp : (cs.filter (fun c => c.id = r0.customerId)).isEmpty
  · rw [if_pos hemp] at hmem
    rcases List.mem_cons.mp hmem with rfl | h
    · exact hr0
    · cases h
  · rw [if_neg hemp] at hmem
    rcases List.mem_map.mp hmem with ⟨_, _, rfl⟩
    exact hr0

theorem fullDataRows_origin (cs : List CustomerRecord) (ps : List ProductRecord)
    (ts : List TransactionRecord) (r : Row) (hr : r ∈ fullDataRows cs ps ts) :
    ∃ t ∈ ts, r.transactionId = t.id ∧ r.customerId = t.customerId ∧
      r.productId = t.productId ∧ r.quantity = t.quantity ∧ r.totalValue = t.totalValue ∧
      ((∀ p ∈ ps, p.id ≠ t.productId) ∧ r.category = none ∨
        ∃ p ∈ ps, p.id = t.productId ∧ r.category = some p.category) :=
  mem_transactionsProducts ts ps r (mem_fullDataRows cs ps ts r hr)

theorem mem_txnCustomers (rows : List Row) (k : Nat) (h : k ∈ txnCustomers rows) :
    ∃ r ∈ rows, r.customerId = k := by
  unfold txnCustomers at h
  rcases List.mem_map.mp (List.mem_dedup.mp h) with ⟨r, hr, rfl⟩
  exact ⟨r, hr, rfl⟩

theorem mem_transactionFeatures (rows : List Row) (cats : List Nat)
    (q : Nat × List ℚ) (h : q ∈ transactionFeatures rows cats) :
    q.1 ∈ txnCustomers rows ∧ q.2 = aggVector rows cats q.1 := by
  unfold transactionFeatures at h
  rcases List.mem_map.mp h with ⟨c, hc, rfl⟩
  exact ⟨hc, rfl⟩

theorem aggVector_length (rows : List Row) (cats : List Nat) (c : Nat) :
    (aggVector rows cats c).length = aggWidth cats := by
  unfold aggVector aggWidth
  simp only [List.length_append, List.length_map, List.length_cons, List.length_nil]
  omega

theorem find?_transactionFeatures_none (cs : List CustomerRecord) (ps : List ProductRecord)
    (ts : List TransactionRecord) (cats : List Nat) (k : Nat)
    (hk : ∀ t ∈ ts, t.customerId ≠ k) :
    (transactionFeatures (fullDataRows cs ps ts) cats).find? (fun p => p.1 = k) = none := by
  rw [List.find?_eq_none]
  intro q hq
  rcases mem_transactionFeatures _ _ q hq with ⟨hq1, _⟩
  rcases mem_txnCustomers _ _ hq1 with ⟨r, hr, hrk⟩
  rcases fullDataRows_origin cs ps ts r hr with ⟨t, ht, _, hcust, _⟩
  simp only [decide_eq_true_eq]
  intro hqk
  exact hk t ht (by rw [← hcust, hrk, hqk])

theorem mem_joinFeatures (encoded txF : List (Nat × List ℚ)) (width : Nat)
    (p : Nat × List ℚ) (h : p ∈ joinFeatures encoded txF width) :
    ∃ e ∈ encoded, p.1 = e.1 ∧
      (p.2 = e.2 ++ List.replicate width 0 ∧ txF.find? (fun q => q.1 = e.1) = none ∨
        ∃ q, txF.find? (fun q => q.1 = e.1) = some q ∧ p.2 = e.2 ++ q.2 ∧ q ∈ txF) := by
  unfold joinFeatures at h
  rcases List.mem_map.mp h with ⟨e, he, rfl⟩
  refine ⟨e, he, rfl, ?_⟩
  cases hf : txF.find? (fun q => q.1 = e.1) with
  | none => exact Or.inl ⟨rfl, rfl⟩
  | some q =>
    exact Or.inr ⟨q, rfl, rfl, List.mem_of_find?_eq_some hf⟩

theorem filter_category_eq_nil (cs : List CustomerRecord) (ps : List ProductRecord)
    (ts : List TransactionRecord) (k cat : Nat)
    (hk : ∀ t ∈ ts, t.customerId = k → ∀ p ∈ ps, p.id ≠ t.productId) :
    (fullDataRows cs ps ts).filter
      (fun r => r.customerId = k ∧ r.category = some cat) = [] := by
  rw [List.filter_eq_nil_iff]
  intro r hr
  simp only [decide_eq_true_eq, not_and]
  intro hck
  rcases fullDataRows_origin cs ps ts r hr with
    ⟨t, ht, _, hcust, _, _, _, hbranch⟩
  rcases hbranch with ⟨_, hnone⟩ | ⟨p, hp, hpid, _⟩
  · rw [hnone]
    simp
  · exact absurd hpid (hk t ht (by rw [← hcust, hck]) p hp)

theorem spend_quantity_zero (cs : List CustomerRecord) (ps : List ProductRecord)
    (ts : List TransactionRecord) (k : Nat)
    (hk : ∀ t ∈ ts, t.customerId = k → ∀ p ∈ ps, p.id ≠ t.productId) (cat : Nat) :
    spendPerCategory (fullDataRows cs ps ts) k cat = 0 ∧
      quantityPerCategory (fullDataRows cs ps ts) k cat = 0 := by
  unfold spendPerCategory quantityPerCategory
  rw [filter_category_eq_nil cs ps ts k cat hk]
  exact ⟨rfl, rfl⟩

/-- Example profile collection: a single customer, region 0. -/
def exSingle : List CustomerRecord := [⟨1, some 0⟩]

/-- Example transaction referencing product key 9, which matches no
product record. -/
def exOrphanTxn : List TransactionRecord := [⟨1, 1, 9, 5, 50⟩]

/-- Example profile collection listed in ascending key order. -/
def exAsc : List CustomerRecord := [⟨1, some 0⟩, ⟨2, some 0⟩, ⟨3, some 0⟩]

/-- Example profile collection listed out of key order (key 3 before
key 2). -/
def exShuffled : List CustomerRecord := [⟨1, some 0⟩, ⟨3, some 0⟩, ⟨2, some 0⟩]

/-- Example inputs with two customers, one product and one transaction. -/
def exTwoCs : List CustomerRecord := [⟨1, some 0⟩, ⟨2, some 1⟩]

def exOneProd : List ProductRecord := [⟨9, 4⟩]

def exOneTxn : List TransactionRecord := [⟨1, 1, 9, 2, 20⟩]

theorem eval_build_single : buildCustomerData exSingle [] [] = .ok [(1, [1, 0, 0])] := by
  norm_num [exSingle, buildCustomerData, fullDataRows, transactionsProducts, categoryUniverse,
    regionUniverse, encodeCustomers, oneHot, joinFeatures, transactionFeatures, txnCustomers,
    aggWidth, aggVector, sortAsc, insertAsc, spendPerCategory, quantityPerCategory,
    uniqueProducts, totalTransactions, List.dedup_cons_of_not_mem, List.dedup_cons_of_mem,
    Except.map, List.replicate_succ, List.replicate_zero]

theorem eval_build_orphan :
    buildCustomerData exSingle [] exOrphanTxn = .ok [(1, [1, 1, 1])] := by
  norm_num [exSingle, exOrphanTxn, buildCustomerData, fullDataRows, transactionsProducts,
    categoryUniverse, regionUniverse, encodeCustomers, oneHot, joinFeatures,
    transactionFeatures, txnCustomers, aggWidth, aggVector, sortAsc, insertAsc,
    spendPerCategory, quantityPerCategory, uniqueProducts, totalTransactions,
    List.dedup_cons_of_not_mem, List.dedup_cons_of_mem, Except.map, List.replicate_succ,
    List.replicate_zero]

theorem eval_build_two :
    buildCustomerData exTwoCs exOneProd exOneTxn =
      .ok [(1, [1, 0, 20, 2, 1, 1]), (2, [0, 1, 0, 0, 0, 0])] := by
  norm_num [exTwoCs, exOneProd, exOneTxn, buildCustomerData, fullDataRows,
    transactionsProducts, categoryUniverse, regionUniverse, encodeCustomers, oneHot,
    joinFeatures, transactionFeatures, txnCustomers, aggWidth, aggVector, sortAsc, insertAsc,
    spendPerCategory, quantityPerCategory, uniqueProducts, totalTransactions,
    List.dedup_cons_of_not_mem, List.dedup_cons_of_mem, Except.map, List.replicate_succ,
    List.replicate_zero]

theorem eval_scaled_single : buildScaled exSingle [] [] = .ok [(1, [0, 0, 0])] := by
  rw [buildScaled, eval_build_single]
  norm_num [scaleData, scaleRow, scaleValue, colVals, listMin, listMax, Except.map,
    List.range_succ]

theorem eval_scaled_asc :
    buildScaled exAsc [] [] = .ok [(1, [0, 0, 0]), (2, [0, 0, 0]), (3, [0, 0, 0])] := by
  norm_num [exAsc, buildScaled, buildCustomerData, fullDataRows, transactionsProducts,
    categoryUniverse, regionUniverse, encodeCustomers, oneHot, joinFeatures,
    transactionFeatures, txnCustomers, aggWidth, aggVector, sortAsc, insertAsc,
    spendPerCategory, quantityPerCategory, uniqueProducts, totalTransactions,
    List.dedup_cons_of_not_mem, List.dedup_cons_of_mem, Except.map, List.replicate_succ,
    List.replicate_zero, scaleData, scaleRow, scaleValue, colVals, listMin, listMax,
    List.range_succ]

theorem eval_scaled_shuffled :
    buildScaled exShuffled [] [] = .ok [(1, [0, 0, 0]), (3, [0, 0, 0]), (2, [0, 0, 0])] := by
  norm_num [exShuffled, buildScaled, buildCustomerData, fullDataRows, transactionsProducts,
    categoryUniverse, regionUniverse, encodeCustomers, oneHot, joinFeatures,
    transactionFeatures, txnCustomers, aggWidth, aggVector, sortAsc, insertAsc,
    spendPerCategory, quantityPerCategory, uniqueProducts, totalTransactions,
    List.dedup_cons_of_not_mem, List.dedup_cons_of_mem, Except.map, List.replicate_succ,
    List.replicate_zero, scaleData, scaleRow, scaleValue, colVals, listMin, listMax,
    List.range_succ]

theorem cosineSim_zeros : cosineSim [0, 0, 0] ([0, 0, 0] : List ℚ) = 0 := by
  have hd : dotQ [0, 0, 0] ([0, 0, 0] : List ℚ) = 0 := by
    norm_num [dotQ, List.zipWith]
  unfold cosineSim
  rw [hd]
  norm_num

theorem eval_recommend_asc : recommend exAsc [] [] 1 3 = .ok [(2, 0), (3, 0)] := by
  unfold recommend
  rw [eval_scaled_asc]
  norm_num [simRowFor, cosineSim_zeros, nlargest, sortDesc, insertDesc, List.find?,
    List.filter]

theorem eval_recommend_shuffled :
    recommend exShuffled [] [] 1 3 = .ok [(3, 0), (2, 0)] := by
  unfold recommend
  rw [eval_scaled_shuffled]
  norm_num [simRowFor, cosineSim_zeros, nlargest, sortDesc, insertDesc, List.find?,
    List.filter]

/-- Claim C1 (counterexample): the top-K result is not always tie-broken
by ascending customer key. With the profile collection listed as keys
1, 3, 2 (all sharing one region, no transactions), every candidate gets
score 0, and the query for customer 1 returns key 3 before key 2: equal
scores appear in input order, not ascending key order. -/
theorem claim_c1_tie_order_counterexample :
    recommend exShuffled [] [] 1 3 = .ok [(3, 0), (2, 0)] ∧
      ¬ ([((3 : Nat), (0 : ℝ)), (2, 0)].Pairwise (fun a b => a.2 = b.2 → a.1 < b.1)) := by
  refine ⟨eval_recommend_shuffled, ?_⟩
  intro hpw
  have h := (List.pairwise_cons.mp hpw).1 (2, 0) (List.mem_cons_self _ _) rfl
  exact absurd h (by norm_num)

/-- Every list relates its elements, in order, by two-element sublists:
whenever `a` occurs before `b` in `m`, the pair list of `a` then `b` is
a sublist of `m`. -/
theorem pairwise_pair_sublist {α : Type} :
    ∀ m : List α, m.Pairwise (fun a b => [a, b].Sublist m)
  | [] => List.Pairwise.nil
  | x :: t => by
    refine List.pairwise_cons.mpr ⟨?_, ?_⟩
    · intro b hb
      exact List.Sublist.cons₂ x (List.singleton_sublist.mpr hb)
    · refine (pairwise_pair_sublist t).imp ?_
      intro a b h
      exact h.trans (List.sublist_cons_self x t)

/-- Claim C1 (amended): for every queried customer, on every input on
which the query succeeds, the returned result is sorted by similarity
score descending, and whenever two entries have exactly equal scores
they appear in the order the customers are listed in the input profile
collection (their key pair, in result order, is a sublist of the profile
key list); in particular, when the profile collection is listed in
strictly ascending key order, equal scores appear in ascending key
order. -/
theorem claim_c1_topk_sorted_ties_ascending (cs : List CustomerRecord)
    (ps : List ProductRecord) (ts : List TransactionRecord) (q k : Nat)
    (res : List (Nat × ℝ))
    (hok : recommend cs ps ts q k = .ok res) :
    SortedDesc res ∧
      res.Pairwise (fun a b => a.2 = b.2 →
        [a.1, b.1].Sublist (cs.map CustomerRecord.id)) ∧
      ((cs.map CustomerRecord.id).Pairwise (· < ·) →
        res.Pairwise (fun a b => a.2 = b.2 → a.1 < b.1)) := by
  unfold recommend at hok
  cases hb : buildScaled cs ps ts with
  | error e => rw [hb] at hok; cases hok
  | ok data =>
    rw [hb] at hok
    dsimp only at hok
    cases hf : data.find? (fun p => p.1 = q) with
    | none => rw [hf] at hok; cases hok
    | some p =>
      rw [hf] at hok
      dsimp only at hok
      cases hok
      have hkeys := buildScaled_ok_keys cs ps ts data hb
      refine ⟨List.Pairwise.sublist (List.take_sublist _ _) (sortedDesc_sortDesc _),
        ?_, ?_⟩
      · have hmapped : (data.map Prod.fst).Pairwise
            (fun a b => [a, b].Sublist (cs.map CustomerRecord.id)) := by
          rw [hkeys]
          exact pairwise_pair_sublist _
        have hdata : data.Pairwise (fun a b =>
            [a.1, b.1].Sublist (cs.map CustomerRecord.id)) :=
          List.pairwise_map.mp hmapped
        have hrow : (simRowFor data p.2).Pairwise (fun a b =>
            [a.1, b.1].Sublist (cs.map CustomerRecord.id)) :=
          List.pairwise_map.mpr hdata
        have hfilt : ((simRowFor data p.2).filter (fun r => r.1 ≠ q)).Pairwise
            (fun a b => [a.1, b.1].Sublist (cs.map CustomerRecord.id)) :=
          List.Pairwise.sublist (List.filter_sublist _) hrow
        have hties : ((simRowFor data p.2).filter (fun r => r.1 ≠ q)).Pairwise
            (fun a b => a.2 = b.2 →
              [a.1, b.1].Sublist (cs.map CustomerRecord.id)) := by
          refine hfilt.imp ?_
          intro a b hab
          exact fun _ => hab
        exact List.Pairwise.sublist (List.take_sublist _ _) (sortDesc_ties _ _ hties)
      · intro hasc
        have hdata : data.Pairwise (fun a b => a.1 < b.1) := by
          refine List.pairwise_map.mp ?_
          rw [hkeys]
          exact hasc
        have hrow : (simRowFor data p.2).Pairwise (fun a b => a.1 < b.1) :=
          List.pairwise_map.mpr hdata
        have hfilt : ((simRowFor data p.2).filter (fun r => r.1 ≠ q)).Pairwise
            (fun a b => a.1 < b.1) :=
          List.Pairwise.sublist (List.filter_sublist _) hrow
        have hties : ((simRowFor data p.2).filter (fun r => r.1 ≠ q)).Pairwise
            (fun a b => a.2 = b.2 → a.1 < b.1) := by
          refine hfilt.imp ?_
          intro a b hab
          exact fun _ => hab
        exact List.Pairwise.sublist (List.take_sublist _ _) (sortDesc_ties _ _ hties)

/-- Claim C1 (witness): on the key-sorted profile collection 1, 2, 3 the
query for customer 1 returns a result that is sorted by score descending,
with equal scores in profile order (key pairs are sublists of the
profile key list) and hence in ascending key order. -/
theorem claim_c1_topk_sorted_ties_ascending_witness :
    SortedDesc [((2 : Nat), (0 : ℝ)), (3, 0)] ∧
      [((2 : Nat), (0 : ℝ)), (3, 0)].Pairwise (fun a b => a.2 = b.2 →
        [a.1, b.1].Sublist (exAsc.map CustomerRecord.id)) ∧
      [((2 : Nat), (0 : ℝ)), (3, 0)].Pairwise (fun a b => a.2 = b.2 → a.1 < b.1) := by
  have h := claim_c1_topk_sorted_ties_ascending exAsc [] [] 1 3 [(2, 0), (3, 0)]
    eval_recommend_asc
  exact ⟨h.1, h.2.1, h.2.2 (by decide)⟩

/-- Claim C2: the built feature table carries exactly the input profile
keys, in order (so the key sets agree: no customer dropped, none
invented), and a customer referenced by no transaction receives an
all-zero aggregate block after the indicator block. -/
theorem claim_c2_keyset_and_zero_aggregates (cs : List CustomerRecord)
    (ps : List ProductRecord) (ts : List TransactionRecord)
    (data : List (Nat × List ℚ)) (h : buildCustomerData cs ps ts = .ok data) :
    data.map Prod.fst = cs.map CustomerRecord.id ∧
      ∀ p ∈ data, (∀ t ∈ ts, t.customerId ≠ p.1) →
        p.2.drop (regionUniverse cs).length =
          List.replicate (aggWidth (categoryUniverse (fullDataRows cs ps ts))) 0 := by
  refine ⟨buildCustomerData_ok_keys cs ps ts data h, ?_⟩
  intro p hp hnot
  rcases buildCustomerData_ok_inv cs ps ts data h with ⟨enc, henc, rfl⟩
  rcases mem_joinFeatures _ _ _ p hp with ⟨e, he, hpe, hcase⟩
  have hlen : e.2.length = (regionUniverse cs).length :=
    encodeCustomers_ok_lengths _ cs enc henc e he
  rcases hcase with ⟨hp2, _⟩ | ⟨w, hfind, _, _⟩
  · rw [hp2, ← hlen, List.drop_left]
  · exfalso
    have hnone := find?_transactionFeatures_none cs ps ts
      (categoryUniverse (fullDataRows cs ps ts)) p.1 hnot
    rw [hpe] at hnone
    rw [hfind] at hnone
    cases hnone

/-- Claim C2 (witness): a single customer with no transactions keeps its
key and receives the zero aggregate block. -/
theorem claim_c2_keyset_and_zero_aggregates_witness :
    [((1 : Nat), [(1 : ℚ), 0, 0])].map Prod.fst = exSingle.map CustomerRecord.id ∧
      [(1 : ℚ), 0, 0].drop (regionUniverse exSingle).length =
        List.replicate (aggWidth (categoryUniverse (fullDataRows exSingle [] []))) 0 := by
  have h := claim_c2_keyset_and_zero_aggregates exSingle [] [] [(1, [1, 0, 0])]
    eval_build_single
  exact ⟨h.1, h.2 (1, [1, 0, 0]) (List.mem_cons_self _ _) (by simp)⟩

/-- Claim C3: a customer record with an undefined region makes the build
fail with the missing-attribute failure naming that record, and the
failure is surfaced unchanged through scaling and through the recommend
query rather than recovered. -/
theorem claim_c3_missing_region_fails (ps : List ProductRecord)
    (ts : List TransactionRecord) (pre : List CustomerRecord) (c : CustomerRecord)
    (post : List CustomerRecord) (q k : Nat)
    (hpre : ∀ d ∈ pre, d.region ≠ none) (hc : c.region = none) :
    buildCustomerData (pre ++ c :: post) ps ts =
        .error (.missingAttributeError c.id) ∧
      buildScaled (pre ++ c :: post) ps ts = .error (.missingAttributeError c.id) ∧
      recommend (pre ++ c :: post) ps ts q k = .error (.missingAttributeError c.id) := by
  have henc := encodeCustomers_first_missing (regionUniverse (pre ++ c :: post)) ps c post
    hc pre hpre
  have hbuild : buildCustomerData (pre ++ c :: post) ps ts =
      .error (.missingAttributeError c.id) := by
    unfold buildCustomerData
    rw [henc]
    rfl
  have hscaled : buildScaled (pre ++ c :: post) ps ts =
      .error (.missingAttributeError c.id) := by
    unfold buildScaled
    rw [hbuild]
    rfl
  refine ⟨hbuild, hscaled, ?_⟩
  unfold recommend
  rw [hscaled]

/-- Claim C3 (witness): the build of a one-customer collection whose
region is undefined fails with the missing-attribute failure for that
customer, through every stage. -/
theorem claim_c3_missing_region_fails_witness :
    buildCustomerData [⟨1, none⟩] [] [] = .error (.missingAttributeError 1) ∧
      buildScaled [⟨1, none⟩] [] [] = .error (.missingAttributeError 1) ∧
      recommend [⟨1, none⟩] [] [] 5 3 = .error (.missingAttributeError 1) :=
  claim_c3_missing_region_fails [] [] [] ⟨1, none⟩ [] 5 3 (by simp) rfl

/-- Claim C4: a recommend query for a key absent from the built (scaled)
similarity model fails with the unknown-customer failure, surfaced, not
retried. -/
theorem claim_c4_unknown_customer_error (cs : List CustomerRecord)
    (ps : List ProductRecord) (ts : List TransactionRecord) (q k : Nat)
    (data : List (Nat × List ℚ)) (hok : buildScaled cs ps ts = .ok data)
    (habs : q ∉ data.map Prod.fst) :
    recommend cs ps ts q k = .error (.unknownCustomerError q) := by
  unfold recommend
  rw [hok]
  dsimp only
  have hfind : data.find? (fun p => p.1 = q) = none := by
    rw [List.find?_eq_none]
    intro p hp
    simp only [decide_eq_true_eq]
    intro hpq
    exact habs (hpq ▸ List.mem_map_of_mem Prod.fst hp)
  rw [hfind]

/-- Claim C4 (witness): querying key 2 against a model built over the
single customer 1 fails with the unknown-customer failure. -/
theorem claim_c4_unknown_customer_error_witness :
    recommend exSingle [] [] 2 3 = .error (.unknownCustomerError 2) :=
  claim_c4_unknown_customer_error exSingle [] [] 2 3 [(1, [0, 0, 0])]
    eval_scaled_single (by simp)

/-- Claim C5: a feature dimension whose population minimum equals its
population maximum (a constant column) rescales to 0 for every customer;
the zero-range guard divides by 1, so the value is defined (no undefined
value, no failure). -/
theorem claim_c5_constant_column_scales_to_zero (tbl : List (List ℚ)) (j : Nat)
    (h : listMin (colVals tbl j) = listMax (colVals tbl j)) :
    ∀ row ∈ tbl, (scaleRow tbl row).getD j 0 = 0 := by
  intro row hrow
  by_cases hj : j < row.length
  · rw [scaleRow_getD tbl row j hj]
    have hx : row.getD j 0 ∈ colVals tbl j := List.mem_map_of_mem _ hrow
    have hxm := eq_listMin_of_min_eq_max h _ hx
    unfold scaleValue
    rw [hxm, sub_self, zero_div]
  · refine List.getD_eq_default _ _ ?_
    unfold scaleRow
    rw [List.length_map, List.length_range]
    omega

/-- Claim C5 (witness): a two-customer population whose single column is
constant at 5 rescales that column to 0. -/
theorem claim_c5_constant_column_scales_to_zero_witness :
    (scaleRow [[(5 : ℚ)], [5]] [5]).getD 0 0 = 0 :=
  claim_c5_constant_column_scales_to_zero [[(5 : ℚ)], [5]] 0
    (by norm_num [colVals, listMin, listMax]) [5] (List.mem_cons_self _ _)

/-- Claim C6 (counterexample): a transaction whose product key matches no
product does not leave the affected customer with an all-zero aggregate
block: the build succeeds, the orphan row contributes nothing to any
per-category aggregate, but it still counts in the unique-product and
transaction counts, so the aggregate block is 1, 1, not 0, 0. -/
theorem claim_c6_zero_aggregates_counterexample :
    buildCustomerData exSingle [] exOrphanTxn = .ok [(1, [1, 1, 1])] ∧
      ¬ ([(1 : ℚ), 1, 1].drop (regionUniverse exSingle).length =
          List.replicate (aggWidth (categoryUniverse (fullDataRows exSingle [] exOrphanTxn)))
            0) := by
  refine ⟨eval_build_orphan, ?_⟩
  norm_num [exSingle, exOrphanTxn, regionUniverse, categoryUniverse, fullDataRows,
    transactionsProducts, sortAsc, insertAsc, aggWidth, List.replicate_succ,
    List.replicate_zero]

/-- Claim C6 (amended): malformed joins are not fatal — if every region
is defined the build succeeds — and a customer all of whose transactions
reference unmatched product keys gets zero in every per-category spend
and quantity aggregate (the orphan rows keep an undefined category, which
every category group-by drops), though such rows still count in the
transaction and unique-product counts; a transaction with an unmatched
customer key survives the merges but its key is excluded from the final
feature table by the left join onto the profile collection. -/
theorem claim_c6_left_join_degrades (cs : List CustomerRecord)
    (ps : List ProductRecord) (ts : List TransactionRecord) (k cat : Nat)
    (hreg : ∀ c ∈ cs, c.region ≠ none)
    (hk : ∀ t ∈ ts, t.customerId = k → ∀ p ∈ ps, p.id ≠ t.productId) :
    (∃ data, buildCustomerData cs ps ts = .ok data) ∧
      spendPerCategory (fullDataRows cs ps ts) k cat = 0 ∧
      quantityPerCategory (fullDataRows cs ps ts) k cat = 0 := by
  constructor
  · rcases encodeCustomers_ok_of_defined (regionUniverse cs) cs hreg with ⟨enc, henc⟩
    refine ⟨joinFeatures enc
      (transactionFeatures (fullDataRows cs ps ts)
        (categoryUniverse (fullDataRows cs ps ts)))
      (aggWidth (categoryUniverse (fullDataRows cs ps ts))), ?_⟩
    unfold buildCustomerData
    rw [henc]
    rfl
  · exact spend_quantity_zero cs ps ts k hk cat

/-- Claim C6 (witness): the orphan-product transaction of customer 1
yields zero spend and quantity aggregates in category 0. -/
theorem claim_c6_left_join_degrades_witness :
    spendPerCategory (fullDataRows exSingle [] exOrphanTxn) 1 0 = 0 ∧
      quantityPerCategory (fullDataRows exSingle [] exOrphanTxn) 1 0 = 0 := by
  have h := claim_c6_left_join_degrades exSingle [] exOrphanTxn 1 0
    (by simp [exSingle]) (by simp [exOrphanTxn])
  exact h.2

/-- Claim C7: every similarity score lies in the closed interval from -1
to 1, and scores between min-max scaled vectors (whose entries are all
nonnegative) lie in the closed interval from 0 to 1. -/
theorem claim_c7_scores_bounded (tbl : List (List ℚ)) (u v : List ℚ) :
    (-1 ≤ cosineSim u v ∧ cosineSim u v ≤ 1) ∧
      (u ∈ tbl → v ∈ tbl →
        0 ≤ cosineSim (scaleRow tbl u) (scaleRow tbl v) ∧
          cosineSim (scaleRow tbl u) (scaleRow tbl v) ≤ 1) := by
  refine ⟨⟨neg_one_le_cosineSim u v, cosineSim_le_one u v⟩, fun hu hv => ?_⟩
  exact ⟨cosineSim_nonneg _ _ (scaleRow_entries_nonneg tbl u hu)
      (scaleRow_entries_nonneg tbl v hv),
    cosineSim_le_one _ _⟩

/-- Claim C7 (witness): on the concrete two-vector population with
columns 0 and 1, the scaled similarity is within 0 and 1 and the raw
similarity is within -1 and 1. -/
theorem claim_c7_scores_bounded_witness :
    ((-1 : ℝ) ≤ cosineSim [0] [1] ∧ cosineSim [0] [1] ≤ 1) ∧
      (0 ≤ cosineSim (scaleRow [[(0 : ℚ)], [1]] [0]) (scaleRow [[(0 : ℚ)], [1]] [1]) ∧
        cosineSim (scaleRow [[(0 : ℚ)], [1]] [0]) (scaleRow [[(0 : ℚ)], [1]] [1]) ≤ 1) := by
  have h := claim_c7_scores_bounded [[(0 : ℚ)], [1]] [0] [1]
  exact ⟨h.1, h.2 (by simp) (by simp)⟩

/-- Claim C8: the similarity matrix is symmetric in its two indices, and
its diagonal entry is 1 for every row vector of positive norm. -/
theorem claim_c8_symmetric_self_one (tbl : List (List ℚ)) (i j : Nat) :
    simMatrixEntry tbl i j = simMatrixEntry tbl j i ∧
      (0 < nrm (tbl.getD i []) → simMatrixEntry tbl i i = 1) :=
  ⟨cosineSim_comm _ _, fun h => cosineSim_self _ h⟩

/-- Claim C8 (witness): the one-vector table with entry 1 has a positive
norm and diagonal similarity 1. -/
theorem claim_c8_symmetric_self_one_witness :
    0 < nrm [(1 : ℚ)] ∧ simMatrixEntry [[(1 : ℚ)]] 0 0 = 1 := by
  have hd : dotQ [1] ([1] : List ℚ) = 1 := by norm_num [dotQ, List.zipWith]
  have hn : nrm [(1 : ℚ)] = 1 := by
    unfold nrm
    rw [hd]
    norm_num
  have hpos : 0 < nrm [(1 : ℚ)] := by rw [hn]; exact one_pos
  exact ⟨hpos, (claim_c8_symmetric_self_one [[(1 : ℚ)]] 0 0).2 hpos⟩

/-- Claim C9: every built feature vector has length equal to the number
of distinct observed region values plus twice the number of distinct
observed product categories plus two, and all vectors of a run share one
length. -/
theorem claim_c9_vector_width (cs : List CustomerRecord) (ps : List ProductRecord)
    (ts : List TransactionRecord) (data : List (Nat × List ℚ))
    (h : buildCustomerData cs ps ts = .ok data) :
    (∀ p ∈ data, p.2.length =
        (cs.filterMap CustomerRecord.region).dedup.length +
          (2 * ((fullDataRows cs ps ts).filterMap Row.category).dedup.length + 2)) ∧
      ∀ p ∈ data, ∀ w ∈ data, p.2.length = w.2.length := by
  have hmain : ∀ p ∈ data, p.2.length =
      (cs.filterMap CustomerRecord.region).dedup.length +
        (2 * ((fullDataRows cs ps ts).filterMap Row.category).dedup.length + 2) := by
    intro p hp
    rcases buildCustomerData_ok_inv cs ps ts data h with ⟨enc, henc, rfl⟩
    rcases mem_joinFeatures _ _ _ p hp with ⟨e, he, _, hcase⟩
    have hlen : e.2.length = (regionUniverse cs).length :=
      encodeCustomers_ok_lengths _ cs enc henc e he
    have hreg : (regionUniverse cs).length =
        (cs.filterMap CustomerRecord.region).dedup.length := by
      unfold regionUniverse
      exact length_sortAsc _
    have hcat : (categoryUniverse (fullDataRows cs ps ts)).length =
        ((fullDataRows cs ps ts).filterMap Row.category).dedup.length := by
      unfold categoryUniverse
      exact length_sortAsc _
    rcases hcase with ⟨hp2, _⟩ | ⟨w, _, hp2, hw⟩
    · rw [hp2, List.length_append, hlen, hreg, List.length_replicate]
      unfold aggWidth
      rw [hcat]
    · rcases mem_transactionFeatures _ _ w hw with ⟨_, hw2⟩
      rw [hp2, List.length_append, hlen, hreg, hw2, aggVector_length]
      unfold aggWidth
      rw [hcat]
  exact ⟨hmain, fun p hp w hw => by rw [hmain p hp, hmain w hw]⟩

/-- Claim C9 (witness): with two customers over two observed regions and
one observed product category, the first built vector has length
2 + 2 + 2 = 6, matching the schema formula. -/
theorem claim_c9_vector_width_witness :
    [(1 : ℚ), 0, 20, 2, 1, 1].length =
      (exTwoCs.filterMap CustomerRecord.region).dedup.length +
        (2 * ((fullDataRows exTwoCs exOneProd exOneTxn).filterMap Row.category).dedup.length
          + 2) :=
  (claim_c9_vector_width exTwoCs exOneProd exOneTxn
      [(1, [1, 0, 20, 2, 1, 1]), (2, [0, 1, 0, 0, 0, 0])] eval_build_two).1
    (1, [1, 0, 20, 2, 1, 1]) (List.mem_cons_self _ _)

/-- Claim C10: assuming the input profile keys are pairwise distinct, the
neighbors returned for any query are pairwise distinct and none of them
is the queried key itself. -/
theorem claim_c10_neighbors_distinct_no_self (cs : List CustomerRecord)
    (ps : List ProductRecord) (ts : List TransactionRecord) (q k : Nat)
    (res : List (Nat × ℝ)) (hnd : (cs.map CustomerRecord.id).Nodup)
    (hok : recommend cs ps ts q k = .ok res) :
    (res.map Prod.fst).Nodup ∧ ∀ p ∈ res, p.1 ≠ q := by
  unfold recommend at hok
  cases hb : buildScaled cs ps ts with
  | error e => rw [hb] at hok; cases hok
  | ok data =>
    rw [hb] at hok
    dsimp only at hok
    cases hf : data.find? (fun p => p.1 = q) with
    | none => rw [hf] at hok; cases hok
    | some p =>
      rw [hf] at hok
      dsimp only at hok
      cases hok
      have hkeysnd : (data.map Prod.fst).Nodup := by
        rw [buildScaled_ok_keys cs ps ts data hb]
        exact hnd
      have hrownd : ((simRowFor data p.2).map Prod.fst).Nodup := by
        unfold simRowFor
        rw [List.map_map]
        exact hkeysnd
      have hscorednd :
          (((simRowFor data p.2).filter (fun r => r.1 ≠ q)).map Prod.fst).Nodup :=
        ((List.filter_sublist _).map Prod.fst).nodup hrownd
      have hsortnd :
          ((sortDesc ((simRowFor data p.2).filter (fun r => r.1 ≠ q))).map
            Prod.fst).Nodup :=
        ((sortDesc_perm _).map Prod.fst).nodup_iff.mpr hscorednd
      constructor
      · unfold nlargest
        rw [List.map_take]
        exact (List.take_sublist _ _).nodup hsortnd
      · intro r hr
        have h1 : r ∈ sortDesc ((simRowFor data p.2).filter (fun r => r.1 ≠ q)) :=
          List.Sublist.mem hr (List.take_sublist _ _)
        have h2 : r ∈ (simRowFor data p.2).filter (fun r => r.1 ≠ q) :=
          (sortDesc_perm _).mem_iff.mp h1
        have h3 := (List.mem_filter.mp h2).2
        simpa using h3

/-- Claim C10 (witness): the query for customer 1 over the distinct-key
collection 1, 2, 3 returns neighbors 2 and 3 — distinct and neither equal
to 1. -/
theorem claim_c10_neighbors_distinct_no_self_witness :
    ([((2 : Nat), (0 : ℝ)), (3, 0)].map Prod.fst).Nodup ∧
      (2 : Nat) ≠ 1 ∧ (3 : Nat) ≠ 1 := by
  have h := claim_c10_neighbors_distinct_no_self exAsc [] [] 1 3 [(2, 0), (3, 0)]
    (by decide) eval_recommend_asc
  exact ⟨h.1, h.2 (2, 0) (List.mem_cons_self _ _),
    h.2 (3, 0) (List.mem_cons_of_mem _ (List.mem_cons_self _ _))⟩
